import Mathlib

/-!
Verification of the chat-with-your-notes server core against its
natural-language specification.  The definitions below are shallow
embeddings of the TypeScript source: the chunked-upload service
(`chunkedUploadService`), the text processing utilities
(`textProcessor.ts`), the retrieval functions (`fileService.ts`),
the ingestion pipeline (`processAndStoreFile`), and the conversation
memory manager (`memoryManager.ts` / `chatService`).

Conventions: JavaScript `Date.now()` is modelled as an explicit `now : Nat`
parameter giving the clock value at the moment of the call; the filesystem
directory of upload parts is an association list with shadowing writes
(most recent write is found first, matching the overwrite semantics of
`fs.writeFile`); numeric vector entries are rationals and the opaque
`Math.sqrt` is a function parameter; fallible operations return `Option`
or are paired with an `Except` outcome.
-/

/-! ### Chunked upload service (`chunkedUploadService`, src/unnamed/part_006) -/

/-- A character admitted unchanged by the sanitizing regex
`[^a-zA-Z0-9.-]` of `generateChunkDirName`. -/
def isAllowedChar (c : Char) : Bool :=
  (('a' ≤ c && c ≤ 'z') || ('A' ≤ c && c ≤ 'Z') || ('0' ≤ c && c ≤ '9')
    || c = '.' || c = '-')

/-- `fileName.replace(/[^a-zA-Z0-9.-]/g, '_')`. -/
def sanitizeFileName (fileName : String) : String :=
  String.mk (fileName.data.map fun c => if isAllowedChar c then c else '_')

/-- `generateChunkDirName` of the service.  The `now` argument is the value
of `Date.now()` at the moment this function is invoked. -/
def generateChunkDirName (fileName deviceId : String) (now : Nat) : String :=
  sanitizeFileName fileName ++ "_" ++ deviceId ++ "_" ++ toString now

/-- The metadata the controller attaches to every chunk upload. -/
structure ChunkMetadata where
  fileName : String
  chunkIndex : Nat
  totalChunks : Nat
  fileSize : Nat
  mimeType : String
  deviceId : String
  deriving DecidableEq, Repr

/-- One chunk directory: the `metadata.json` content plus the stored chunk
files, keyed by index.  Writes shadow older entries. -/
structure DirEntry where
  metadata : ChunkMetadata
  chunks : List (Nat × List Nat)
  deriving DecidableEq, Repr

/-- The temp-uploads area: directories keyed by name, newest first. -/
abbrev UploadStore := List (String × DirEntry)

/-- Find a directory by name (first match wins, i.e. the newest write). -/
def lookupDir : UploadStore → String → Option DirEntry
  | [], _ => none
  | (n, e) :: rest, name => if name = n then some e else lookupDir rest name

/-- Find a chunk file by index inside a directory (first match wins). -/
def lookupChunk : List (Nat × List Nat) → Nat → Option (List Nat)
  | [], _ => none
  | (j, b) :: rest, i => if i = j then some b else lookupChunk rest i

/-- `storeChunk`: derives the chunk directory name from the metadata and the
current clock, writes `metadata.json` and the chunk file into it, and
returns the updated store and the derived directory name. -/
def storeChunk (now : Nat) (chunk : List Nat) (metadata : ChunkMetadata)
    (store : UploadStore) : UploadStore × String :=
  let chunkDirName := generateChunkDirName metadata.fileName metadata.deviceId now
  let entry : DirEntry :=
    match lookupDir store chunkDirName with
    | some e => { metadata := metadata, chunks := (metadata.chunkIndex, chunk) :: e.chunks }
    | none => { metadata := metadata, chunks := [(metadata.chunkIndex, chunk)] }
  ((chunkDirName, entry) :: store, chunkDirName)

/-- `areAllChunksUploaded`: reads the metadata and checks that every index
in `[0, totalChunks)` has a stored chunk; any read failure yields `false`. -/
def areAllChunksUploaded (store : UploadStore) (chunkDirName : String) : Bool :=
  match lookupDir store chunkDirName with
  | none => false
  | some e =>
      (List.range e.metadata.totalChunks).all fun i => (lookupChunk e.chunks i).isSome

/-- Read chunks `0, 1, …, n-1` of a directory in ascending index order,
failing if any is missing.  This mirrors the read loop of `mergeChunks`. -/
def collectChunks (chunks : List (Nat × List Nat)) : Nat → Option (List (List Nat))
  | 0 => some []
  | n + 1 =>
      match collectChunks chunks n, lookupChunk chunks n with
      | some pre, some b => some (pre ++ [b])
      | _, _ => none

/-- `mergeChunks`: reads the metadata, then reads the chunk files strictly in
index order and concatenates their bytes into the destination. -/
def mergeChunks (store : UploadStore) (chunkDirName : String) : Option (List Nat) :=
  match lookupDir store chunkDirName with
  | none => none
  | some e => (collectChunks e.chunks e.metadata.totalChunks).map List.flatten

/-- Apply a sequence of chunk writes (arrival order = list order) to an
initially empty directory; each write shadows any earlier write at the same
index. -/
def applyWrites (ws : List (Nat × List Nat)) : List (Nat × List Nat) :=
  ws.foldl (fun acc w => w :: acc) []

/-- `calculateChunkSize`: the size-tier policy (over 100MB → 10MB parts,
over 50MB → 5MB parts, otherwise 2MB parts). -/
def calculateChunkSize (fileSize : Nat) : Nat :=
  if fileSize > 100 * 1024 * 1024 then 10 * 1024 * 1024
  else if fileSize > 50 * 1024 * 1024 then 5 * 1024 * 1024
  else 2 * 1024 * 1024

/-- `calculateTotalChunks`: `Math.ceil(fileSize / chunkSize)`. -/
def calculateTotalChunks (fileSize chunkSize : Nat) : Nat :=
  ⌈(fileSize : ℚ) / (chunkSize : ℚ)⌉₊

/-! ### Text processing (`textProcessor.ts`) -/

/-- `pat` occurs in `text` at position `n`. -/
def occursAt (text pat : List Char) (n : Nat) : Bool :=
  pat.isPrefixOf (text.drop n)

/-- First occurrence of `p` in the text, as in JavaScript `indexOf`:
`some n` for the least position at which `p` occurs, `none` if absent. -/
def firstOcc (p : List Char) : List Char → Option Nat
  | [] => if p.isPrefixOf ([] : List Char) then some 0 else none
  | c :: t => if p.isPrefixOf (c :: t) then some 0 else (firstOcc p t).map (· + 1)

/-- One produced chunk, as in the `TextChunk` interface: `startChar` is the
result of `text.indexOf(chunk)` (`-1` when absent) and
`endChar = startChar + chunk.length`. -/
structure TextChunk where
  content : List Char
  chunkIndex : Nat
  startChar : Int
  endChar : Int
  deriving DecidableEq, Repr

/-- `splitTextIntoChunks`: the external `RecursiveCharacterTextSplitter` is
the opaque `splitter` parameter; each produced chunk is assigned the offset
of its first occurrence in the source text. -/
def splitTextIntoChunks (splitter : List Char → List (List Char))
    (text : List Char) : List TextChunk :=
  (splitter text).enum.map fun p =>
    let startChar : Int :=
      match firstOcc p.2 text with
      | some n => (n : Int)
      | none => -1
    { content := p.2, chunkIndex := p.1, startChar := startChar,
      endChar := startChar + p.2.length }

/-- `calculateCosineSimilarity`: throws (`none`) on a length mismatch,
returns `0` when either computed norm is `0`, and otherwise divides the dot
product by the product of the norms.  `Math.sqrt` is the opaque `sqrtF`. -/
def calculateCosineSimilarity (sqrtF : ℚ → ℚ) (vecA vecB : List ℚ) : Option ℚ :=
  if vecA.length ≠ vecB.length then none
  else
    let dotProduct := (List.zipWith (· * ·) vecA vecB).sum
    let normA := sqrtF (vecA.map fun x => x * x).sum
    let normB := sqrtF (vecB.map fun x => x * x).sum
    if normA = 0 ∨ normB = 0 then some 0
    else some (dotProduct / (normA * normB))

/-! ### Retrieval (`findSimilarChunks` in `textProcessor.ts` and
`fileService.ts`) -/

/-- A persisted chunk row as seen by retrieval: its owning file and its
embedding vector. -/
structure ChunkRec where
  fileId : String
  content : String
  embedding : List ℚ
  deriving DecidableEq, Repr

/-- A persisted file row: its id and owning device. -/
structure FileRec where
  id : String
  deviceId : String
  deriving DecidableEq, Repr

/-- A chunk together with its similarity score. -/
structure ScoredChunk where
  chunk : ChunkRec
  similarity : ℚ
  deriving DecidableEq, Repr

/-- The descending-similarity order used by `sort((a, b) => b.similarity - a.similarity)`. -/
def simGE (a b : ScoredChunk) : Prop := b.similarity ≤ a.similarity

instance : DecidableRel simGE := fun a b =>
  (inferInstance : Decidable (b.similarity ≤ a.similarity))

instance : IsTotal ScoredChunk simGE :=
  ⟨fun a b => le_total b.similarity a.similarity⟩

instance : IsTrans ScoredChunk simGE :=
  ⟨fun _ _ _ h1 h2 => le_trans h2 h1⟩

/-- Score every candidate chunk against the query embedding; fails if any
similarity computation throws. -/
def scoreChunks (sqrtF : ℚ → ℚ) (queryEmbedding : List ℚ) :
    List ChunkRec → Option (List ScoredChunk)
  | [] => some []
  | c :: rest =>
      match calculateCosineSimilarity sqrtF queryEmbedding c.embedding,
          scoreChunks sqrtF queryEmbedding rest with
      | some s, some l => some ({ chunk := c, similarity := s } :: l)
      | _, _ => none

namespace TextProcessor

/-- `findSimilarChunks` of `textProcessor.ts`: fetches the chunks whose
`fileId` is in `fileIds`, scores each against the query embedding, sorts
descending by similarity and takes the first `topK`.  The `deviceId`
parameter is accepted but never used by the implementation. -/
def findSimilarChunks (sqrtF : ℚ → ℚ) (questionEmbedding : List ℚ)
    (topK : Nat) (fileIds : List String) (deviceId : String)
    (allChunks : List ChunkRec) : Option (List ScoredChunk) :=
  let _ := deviceId
  (scoreChunks sqrtF questionEmbedding
      (allChunks.filter fun c => decide (c.fileId ∈ fileIds))).map
    fun scored => (List.insertionSort simGE scored).take topK

end TextProcessor

namespace FileService

/-- `findSimilarChunks` of `fileService.ts`: when a device id is provided
and `fileIds` is non-empty, the candidate file ids are first restricted to
the files owned by that device; then chunks are scored, sorted descending
and truncated to `limit`. -/
def findSimilarChunks (sqrtF : ℚ → ℚ) (queryEmbedding : List ℚ)
    (limit : Nat) (fileIds : List String) (deviceId : Option String)
    (files : List FileRec) (chunks : List ChunkRec) : Option (List ScoredChunk) :=
  let effectiveFileIds :=
    match deviceId with
    | some d =>
        if fileIds.length > 0 then
          (files.filter fun (f : FileRec) =>
              decide (f.id ∈ fileIds) && decide (f.deviceId = d)).map
            fun (f : FileRec) => f.id
        else fileIds
    | none => fileIds
  (scoreChunks sqrtF queryEmbedding
      (chunks.filter fun c => decide (c.fileId ∈ effectiveFileIds))).map
    fun scored => (List.insertionSort simGE scored).take limit

end FileService

/-! ### Ingestion (`processAndStoreFile` in `fileService.ts`) -/

/-- The request-shaped metadata of an uploaded file. -/
structure FileMeta where
  filename : String
  originalName : String
  mimeType : String
  size : Nat
  deviceId : String
  deriving DecidableEq, Repr

/-- A persisted `file` row. -/
structure FileRow where
  id : Nat
  meta : FileMeta
  questions : List String
  deriving DecidableEq, Repr

/-- A persisted `chunk` row. -/
structure ChunkRow where
  fileId : Nat
  chunkIndex : Nat
  content : List Char
  startChar : Int
  endChar : Int
  embedding : List ℚ
  deriving DecidableEq, Repr

/-- The relational store as ingestion sees it. -/
structure DbState where
  files : List FileRow
  chunks : List ChunkRow
  deriving DecidableEq, Repr

/-- `processAndStoreFile`: after splitting, the `file` row is created
first; then an embedding is requested for every chunk and each chunk whose
embedding succeeds is persisted; if any embedding fails the whole call
rejects (`Except.error`) after the file row (and any successful chunk rows)
have been committed.  The opaque embedding backend is `embedF`
(`none` = failed call). -/
def processAndStoreFile (embedF : List Char → Option (List ℚ))
    (newFileId : Nat) (meta : FileMeta) (questions : List String)
    (splitOutput : List TextChunk) (db : DbState) :
    DbState × Except String Nat :=
  let fileRow : FileRow := ⟨newFileId, meta, questions⟩
  let db1 : DbState := ⟨db.files ++ [fileRow], db.chunks⟩
  let results := splitOutput.map fun c => (c, embedF c.content)
  let newChunks := results.filterMap fun p =>
    p.2.map fun e =>
      ChunkRow.mk newFileId p.1.chunkIndex p.1.content p.1.startChar p.1.endChar e
  let db2 : DbState := ⟨db1.files, db1.chunks ++ newChunks⟩
  if results.all fun p => p.2.isSome then (db2, Except.ok newFileId)
  else (db2, Except.error "embedding failed")

/-! ### Conversation memory (`memoryManager.ts`, `chatService`) -/

/-- A `chatSession` row. -/
structure ChatSession where
  id : Nat
  title : String
  deviceId : String
  messageCount : Nat
  isSummarized : Bool
  conversationSummary : Option String
  lastSummarizedAt : Option Nat
  deriving DecidableEq, Repr

/-- A `chatMessage` row.  The list order is chronological
(`createdAt` ascending, append-only). -/
structure ChatMessage where
  id : Nat
  role : String
  content : String
  context : List String
  isSummarized : Bool
  createdAt : Nat
  deriving DecidableEq, Repr

/-- One conversation session together with its messages. -/
structure MemState where
  session : ChatSession
  messages : List ChatMessage
  deriving DecidableEq, Repr

/-- The result record of `MemoryManager.optimizeMemory`. -/
structure OptimizeResult where
  optimized : Bool
  summary : Option String
  messageCount : Nat
  deriving DecidableEq, Repr

/-- The record returned by `MemoryManager.getOptimizedContext`. -/
structure OptimizedContext where
  history : List (String × String)
  summary : Option String
  shouldSummarize : Bool
  deriving DecidableEq, Repr

/-- `generateConversationSummary` (`gemini.ts`): returns `""` for fewer than
4 messages, and `""` when the opaque summarization call fails
(the catch branch). -/
def generateConversationSummary (summarizeF : List (String × String) → Option String)
    (conversationHistory : List (String × String)) : String :=
  if conversationHistory.length < 4 then ""
  else
    match summarizeF conversationHistory with
    | some s => s
    | none => ""

/-- The non-summarized messages of a session, as `(role, content)` pairs, in
chronological order. -/
def unsummarizedHistory (messages : List ChatMessage) : List (String × String) :=
  (messages.filter fun m => !m.isSummarized).map fun m => (m.role, m.content)

/-- `MemoryManager.optimizeMemory`: a no-op below the 15-message threshold,
when already summarized, or when there is nothing to summarize; otherwise it
calls the summarizer and, only when a non-empty summary is produced, stores
it, flips `isSummarized`, stamps `lastSummarizedAt` and marks every
unsummarized message summarized. -/
def optimizeMemory (summarizeF : List (String × String) → Option String)
    (now : Nat) (st : MemState) : MemState × OptimizeResult :=
  if st.session.messageCount < 15 || st.session.isSummarized then
    (st, ⟨false, none, st.session.messageCount⟩)
  else
    let history := unsummarizedHistory st.messages
    if history.isEmpty then (st, ⟨false, none, st.session.messageCount⟩)
    else
      let summary := generateConversationSummary summarizeF history
      if summary = "" then (st, ⟨false, none, st.session.messageCount⟩)
      else
        (⟨{ st.session with
              conversationSummary := some summary,
              lastSummarizedAt := some now,
              isSummarized := true },
          st.messages.map fun m => { m with isSummarized := true }⟩,
         ⟨true, some summary, st.session.messageCount⟩)

/-- `clearConversationMemory` (`chatService`): after the ownership check it
nulls the summary and its timestamp, resets `isSummarized` and
`messageCount`, and clears every message's `isSummarized` flag; the
messages themselves are not deleted. -/
def clearConversationMemory (deviceId : String) (st : MemState) :
    Except String MemState :=
  if st.session.deviceId = deviceId then
    Except.ok
      ⟨{ st.session with
           conversationSummary := none,
           lastSummarizedAt := none,
           isSummarized := false,
           messageCount := 0 },
        st.messages.map fun m => { m with isSummarized := false }⟩
  else Except.error "Chat session not found or access denied"

/-- `MemoryManager.getRecentMessages`: the most recent `limit`
non-summarized messages, returned in chronological order. -/
def getRecentMessages (messages : List ChatMessage) (limit : Nat) :
    List (String × String) :=
  ((((messages.filter fun m => !m.isSummarized)).reverse.take limit)).reverse.map
    fun m => (m.role, m.content)

/-- `MemoryManager.shouldSummarize`. -/
def shouldSummarizeFn (s : ChatSession) : Bool :=
  15 ≤ s.messageCount && !s.isSummarized

/-- `MemoryManager.getOptimizedContext`. -/
def getOptimizedContext (s : ChatSession) (messages : List ChatMessage) :
    OptimizedContext :=
  let shouldSum := shouldSummarizeFn s
  if s.isSummarized && !(s.conversationSummary.getD "").isEmpty then
    ⟨getRecentMessages messages 8, s.conversationSummary, shouldSum⟩
  else if shouldSum then ⟨getRecentMessages messages 8, none, true⟩
  else ⟨getRecentMessages messages 20, none, false⟩

/-- `processQuestion` (`chatService`): finds or creates the session, reads
the optimized context, appends the user message (incrementing
`messageCount`), generates the answer (memory-enhanced when there is
history, possibly triggering `optimizeMemory`), then appends the assistant
message (incrementing `messageCount` again).  The opaque completion
backends are `memAnswerF` (answer plus its length-based summarize hint) and
`genAnswerF`; retrieval output is `contextChunks`. -/
def processQuestion (memAnswerF : List (String × String) → String × Bool)
    (genAnswerF : Option String → String)
    (summarizeF : List (String × String) → Option String)
    (now : Nat) (question : String) (contextChunks : List String)
    (deviceId : String) (freshId msgId1 msgId2 : Nat)
    (st0 : Option MemState) : MemState × String :=
  let ms0 : MemState :=
    match st0 with
    | some ms => ms
    | none =>
        ⟨{ id := freshId,
           title := if question.length > 50 then question.take 50 ++ "..." else question,
           deviceId := deviceId, messageCount := 0, isSummarized := false,
           conversationSummary := none, lastSummarizedAt := none }, []⟩
  let octx := getOptimizedContext ms0.session ms0.messages
  let userMsg : ChatMessage := ⟨msgId1, "user", question, [], false, now⟩
  let ms1 : MemState :=
    ⟨{ ms0.session with messageCount := ms0.session.messageCount + 1 },
      ms0.messages ++ [userMsg]⟩
  let step5 : MemState × String :=
    if octx.history.length > 0 then
      let memResp := memAnswerF octx.history
      let shouldSum := octx.shouldSummarize || memResp.2
      if shouldSum then ((optimizeMemory summarizeF now ms1).1, memResp.1)
      else (ms1, memResp.1)
    else (ms1, genAnswerF octx.summary)
  let ms2 := step5.1
  let answer := step5.2
  let assistantMsg : ChatMessage := ⟨msgId2, "assistant", answer, contextChunks, false, now⟩
  (⟨{ ms2.session with messageCount := ms2.session.messageCount + 1 },
     ms2.messages ++ [assistantMsg]⟩, answer)

/-! #### Helper lemmas for the upload service -/

theorem lookupChunk_of_nodup_mem {l : List (Nat × List Nat)} {i : Nat} {b : List Nat}
    (hnd : (l.map Prod.fst).Nodup) (hmem : (i, b) ∈ l) :
    lookupChunk l i = some b := by
  induction l with
  | nil => cases hmem
  | cons hd tl ih =>
      obtain ⟨j, c⟩ := hd
      simp only [List.map_cons, List.nodup_cons] at hnd
      rcases List.mem_cons.mp hmem with heq | htl
      · injection heq with h1 h2
        subst h1; subst h2
        simp [lookupChunk]
      · have hij : i ≠ j := by
          intro h
          exact hnd.1 (h ▸ List.mem_map_of_mem Prod.fst htl)
        simp only [lookupChunk, if_neg hij]
        exact ih hnd.2 htl

theorem applyWrites_eq_reverse (ws : List (Nat × List Nat)) :
    applyWrites ws = ws.reverse := by
  have h : ∀ (l : List (Nat × List Nat)) (acc : List (Nat × List Nat)),
      l.foldl (fun acc w => w :: acc) acc = l.reverse ++ acc := by
    intro l
    induction l with
    | nil => intro acc; simp
    | cons hd tl ih =>
        intro acc
        simp [List.foldl_cons, ih, List.reverse_cons]
  simpa [applyWrites] using h ws []

theorem collectChunks_eq (parts : Nat → List Nat) (chunks : List (Nat × List Nat)) :
    ∀ total : Nat, (∀ i, i < total → lookupChunk chunks i = some (parts i)) →
      collectChunks chunks total = some ((List.range total).map parts) := by
  intro total
  induction total with
  | zero => intro _; simp [collectChunks]
  | succ n ih =>
      intro h
      have hpre := ih fun i hi => h i (Nat.lt_succ_of_lt hi)
      have hn := h n (Nat.lt_succ_self n)
      simp [collectChunks, hpre, hn, List.range_succ]

theorem calculateChunkSize_pos (s : Nat) : 0 < calculateChunkSize s := by
  unfold calculateChunkSize
  split_ifs <;> norm_num

/-! ### Ceiling characterization used by the upload-initialization claim -/

theorem calculateTotalChunks_bounds (s c : Nat) (hs : 0 < s) (hc : 0 < c) :
    s ≤ calculateTotalChunks s c * c ∧ (calculateTotalChunks s c - 1) * c < s := by
  have hcq : (0 : ℚ) < (c : ℚ) := by exact_mod_cast hc
  have hsq : (0 : ℚ) < (s : ℚ) := by exact_mod_cast hs
  set n := calculateTotalChunks s c with hn
  have hdivpos : (0 : ℚ) < (s : ℚ) / (c : ℚ) := div_pos hsq hcq
  have hnpos : 0 < n := by
    rw [hn]
    unfold calculateTotalChunks
    exact Nat.ceil_pos.mpr hdivpos
  constructor
  · have hle : (s : ℚ) / (c : ℚ) ≤ (n : ℚ) := by
      rw [hn]
      unfold calculateTotalChunks
      exact Nat.le_ceil _
    have : (s : ℚ) ≤ (n : ℚ) * (c : ℚ) := (div_le_iff₀ hcq).mp hle
    exact_mod_cast this
  · have hlt : ((n - 1 : ℕ) : ℚ) < (s : ℚ) / (c : ℚ) := by
      have : (n - 1 : ℕ) < n := Nat.sub_lt hnpos Nat.one_pos
      rw [hn] at this ⊢
      unfold calculateTotalChunks at this ⊢
      exact Nat.lt_ceil.mp this
    have : ((n - 1 : ℕ) : ℚ) * (c : ℚ) < (s : ℚ) := (lt_div_iff₀ hcq).mp hlt
    exact_mod_cast this

/-! ### Claim theorems: upload subsystem -/

/-- C1: the claim says every `StorePart` call for the same declared filename
and owner derives the same session directory, the creation timestamp being
fixed when the first part arrives.  The code instead calls `Date.now()`
inside every `storeChunk`, so two parts of the same logical upload arriving
at clock values 1000 and 1001 land in two different directories, and the
two-part upload is complete in neither of them.  This theorem evaluates the
embedded code at that failing input. -/
theorem claim_C1_storeChunk_directory_not_stable :
    (let meta0 : ChunkMetadata := ⟨"notes.pdf", 0, 2, 4194304, "application/pdf", "dev1"⟩
     let meta1 : ChunkMetadata := ⟨"notes.pdf", 1, 2, 4194304, "application/pdf", "dev1"⟩
     let r1 := storeChunk 1000 [7] meta0 []
     let r2 := storeChunk 1001 [9] meta1 r1.1
     r1.2 ≠ r2.2 ∧ areAllChunksUploaded r2.1 r1.2 = false
       ∧ areAllChunksUploaded r2.1 r2.2 = false) := by
  decide

/-- C2: for every positive declared size, upload initialization yields
`partCount = ⌈size / partSize⌉` exactly (stated both as the ceiling equation
and as the characterizing multiplicative bounds), and the chosen part size
is monotonically non-decreasing in the declared size. -/
theorem claim_C2_initializeUpload_partCount_and_monotone :
    (∀ s : Nat, 0 < s →
        calculateTotalChunks s (calculateChunkSize s)
            = ⌈(s : ℚ) / (calculateChunkSize s : ℚ)⌉₊
          ∧ s ≤ calculateTotalChunks s (calculateChunkSize s) * calculateChunkSize s
          ∧ (calculateTotalChunks s (calculateChunkSize s) - 1) * calculateChunkSize s < s)
    ∧ ∀ s₁ s₂ : Nat, s₁ ≤ s₂ → calculateChunkSize s₁ ≤ calculateChunkSize s₂ := by
  constructor
  · intro s hs
    refine ⟨rfl, ?_, ?_⟩
    · exact (calculateTotalChunks_bounds s _ hs (calculateChunkSize_pos s)).1
    · exact (calculateTotalChunks_bounds s _ hs (calculateChunkSize_pos s)).2
  · intro s₁ s₂ h
    unfold calculateChunkSize
    split_ifs <;> omega

/-- Witness for C2 at size 3 (bounds and ceiling) and at the pair (1, 2)
(monotonicity). -/
theorem claim_C2_witness :
    ((0 : Nat) < 3
      ∧ calculateTotalChunks 3 (calculateChunkSize 3)
            = ⌈(3 : ℚ) / (calculateChunkSize 3 : ℚ)⌉₊
      ∧ 3 ≤ calculateTotalChunks 3 (calculateChunkSize 3) * calculateChunkSize 3
      ∧ (calculateTotalChunks 3 (calculateChunkSize 3) - 1) * calculateChunkSize 3 < 3)
    ∧ ((1 : Nat) ≤ 2 ∧ calculateChunkSize 1 ≤ calculateChunkSize 2) :=
  ⟨⟨by norm_num,
      claim_C2_initializeUpload_partCount_and_monotone.1 3 (by norm_num)⟩,
    by norm_num,
    claim_C2_initializeUpload_partCount_and_monotone.2 1 2 (by norm_num)⟩

/-- C3: for a session directory whose parts `0 .. total-1` are all present
(the writes `ws` may have arrived in any order; each index was written
once), `mergeChunks` reads the parts in ascending index order and the
destination bytes are exactly the concatenation of the parts in index
order. -/
theorem claim_C3_merge_concatenates_in_index_order
    (parts : Nat → List Nat) (total : Nat) (meta : ChunkMetadata)
    (ws : List (Nat × List Nat)) (dirName : String)
    (hmeta : meta.totalChunks = total)
    (hnd : (ws.map Prod.fst).Nodup)
    (hmem : ∀ i, i < total → (i, parts i) ∈ ws) :
    mergeChunks [(dirName, ⟨meta, applyWrites ws⟩)] dirName
      = some ((List.range total).map parts).flatten := by
  have hlookup : ∀ i, i < total → lookupChunk (applyWrites ws) i = some (parts i) := by
    intro i hi
    rw [applyWrites_eq_reverse]
    refine lookupChunk_of_nodup_mem ?_ (List.mem_reverse.mpr (hmem i hi))
    rw [List.map_reverse]
    exact List.nodup_reverse.mpr hnd
  simp [mergeChunks, lookupDir, hmeta, collectChunks_eq parts _ total hlookup]

/-- Witness for C3: a two-part upload whose parts arrived in reverse order
(index 1 first, then index 0) still merges to the bytes of part 0 followed
by the bytes of part 1. -/
theorem claim_C3_witness :
    ((⟨"f.txt", 0, 2, 2, "text/plain", "dev"⟩ : ChunkMetadata).totalChunks = 2
      ∧ (([(1, [9]), (0, [7])] : List (Nat × List Nat)).map Prod.fst).Nodup
      ∧ (∀ i, i < 2 →
          (i, if i = 0 then [7] else [9]) ∈ ([(1, [9]), (0, [7])] : List (Nat × List Nat)))
      ∧ mergeChunks
          [("d", ⟨⟨"f.txt", 0, 2, 2, "text/plain", "dev"⟩,
            applyWrites [(1, [9]), (0, [7])]⟩)] "d" = some [7, 9]) := by
  refine ⟨rfl, by decide, by decide, ?_⟩
  have h := claim_C3_merge_concatenates_in_index_order
    (fun i => if i = 0 then [7] else [9]) 2
    ⟨"f.txt", 0, 2, 2, "text/plain", "dev"⟩
    [(1, [9]), (0, [7])] "d" rfl (by decide) (by decide)
  rw [h]
  decide

/-! #### Helper lemmas for retrieval -/

theorem scoreChunks_map_chunk {sqrtF : ℚ → ℚ} {qv : List ℚ}
    {l : List ChunkRec} {b : List ScoredChunk}
    (h : scoreChunks sqrtF qv l = some b) :
    b.map (fun s => s.chunk) = l := by
  induction l generalizing b with
  | nil =>
      simp only [scoreChunks, Option.some.injEq] at h
      subst h; rfl
  | cons c rest ih =>
      simp only [scoreChunks] at h
      cases hc : calculateCosineSimilarity sqrtF qv c.embedding with
      | none => rw [hc] at h; cases h
      | some s0 =>
          cases hr : scoreChunks sqrtF qv rest with
          | none => rw [hc, hr] at h; cases h
          | some lb =>
              rw [hc, hr] at h
              cases h
              simp [ih hr]

theorem scoreChunks_similarity {sqrtF : ℚ → ℚ} {qv : List ℚ}
    {l : List ChunkRec} {b : List ScoredChunk}
    (h : scoreChunks sqrtF qv l = some b) :
    ∀ s ∈ b, calculateCosineSimilarity sqrtF qv s.chunk.embedding = some s.similarity := by
  induction l generalizing b with
  | nil =>
      simp only [scoreChunks, Option.some.injEq] at h
      subst h; simp
  | cons c rest ih =>
      simp only [scoreChunks] at h
      cases hc : calculateCosineSimilarity sqrtF qv c.embedding with
      | none => rw [hc] at h; cases h
      | some s0 =>
          cases hr : scoreChunks sqrtF qv rest with
          | none => rw [hc, hr] at h; cases h
          | some lb =>
              rw [hc, hr] at h
              cases h
              intro s hs
              rcases List.mem_cons.mp hs with rfl | htl
              · simpa using hc
              · exact ih hr s htl

theorem scoreChunks_chunk_mem {sqrtF : ℚ → ℚ} {qv : List ℚ}
    {l : List ChunkRec} {b : List ScoredChunk}
    (h : scoreChunks sqrtF qv l = some b) :
    ∀ s ∈ b, s.chunk ∈ l := by
  intro s hs
  rw [← scoreChunks_map_chunk h]
  exact List.mem_map_of_mem (fun s => s.chunk) hs

/-! ### Claim theorems: retrieval and cosine similarity -/

/-- C9: whenever the vectors have equal length and either has zero
magnitude (its sum of squares is `0`, in particular for the zero vector),
`calculateCosineSimilarity` takes the guarded branch and returns exactly
`0` instead of dividing.  `sqrtF 0 = 0` is the only fact about the opaque
square root this needs. -/
theorem claim_C9_cosine_zero_magnitude (sqrtF : ℚ → ℚ) (vecA vecB : List ℚ)
    (hs : sqrtF 0 = 0)
    (hlen : vecA.length = vecB.length)
    (hz : (vecA.map fun x => x * x).sum = 0 ∨ (vecB.map fun x => x * x).sum = 0) :
    calculateCosineSimilarity sqrtF vecA vecB = some 0 := by
  rcases hz with h | h <;> simp [calculateCosineSimilarity, hlen, h, hs]

/-- Witness for C9: the zero vector `[0, 0]` against `[3, 4]`, with the
identity standing in for the opaque square root. -/
theorem claim_C9_witness :
    (id (0 : ℚ) = 0 ∧ ([(0 : ℚ), 0]).length = ([(3 : ℚ), 4]).length
        ∧ (([(0 : ℚ), 0]).map fun x => x * x).sum = 0)
      ∧ calculateCosineSimilarity id [(0 : ℚ), 0] [(3 : ℚ), 4] = some 0 :=
  ⟨⟨rfl, rfl, by norm_num⟩,
    claim_C9_cosine_zero_magnitude id [0, 0] [3, 4] rfl rfl (Or.inl (by norm_num))⟩

/-- C4 counterexample: with an owner scope supplied (`"devB"`), the
`textProcessor.ts` implementation still returns the chunk of a file owned
by `"devA"` — the `deviceId` parameter is ignored — while the
`fileService.ts` implementation correctly filters it out.  So the claim
that `FindSimilar` only considers segments owned by the supplied owner
scope is false for the implementation the chat pipeline uses. -/
theorem claim_C4_counterexample :
    TextProcessor.findSimilarChunks id [1] 5 ["f1"] "devB"
        [⟨"f1", "hello", [1]⟩]
      = some [⟨⟨"f1", "hello", [1]⟩, 1⟩]
    ∧ (∀ f ∈ [(⟨"f1", "devA"⟩ : FileRec)], f.deviceId ≠ "devB")
    ∧ FileService.findSimilarChunks id [1] 5 ["f1"] (some "devB")
        [⟨"f1", "devA"⟩] [⟨"f1", "hello", [1]⟩] = some [] := by
  refine ⟨?_, by decide, ?_⟩
  · simp [TextProcessor.findSimilarChunks, scoreChunks, calculateCosineSimilarity,
      List.insertionSort, List.orderedInsert]
  · simp [FileService.findSimilarChunks, scoreChunks, calculateCosineSimilarity,
      List.insertionSort, List.orderedInsert]

/-- C4 (amended): both retrieval implementations score exactly the
candidate chunks whose owning file id is in `fileIds`, sort by
non-increasing similarity and return at most `k` results — but only the
`fileService.ts` implementation applies the owner scope; the
`textProcessor.ts` implementation (used by the chat turn) considers every
chunk whose file id is in `fileIds` regardless of owner. -/
theorem claim_C4_amended_findSimilar
    (sqrtF : ℚ → ℚ) (qv : List ℚ) (k : Nat) (fileIds : List String)
    (dev : String) (files : List FileRec) (db : List ChunkRec) :
    (∀ res, TextProcessor.findSimilarChunks sqrtF qv k fileIds dev db = some res →
        res.length ≤ k ∧ List.Sorted simGE res
          ∧ (∀ s ∈ res, s.chunk ∈ db ∧ s.chunk.fileId ∈ fileIds
              ∧ calculateCosineSimilarity sqrtF qv s.chunk.embedding = some s.similarity)
          ∧ ∃ full, List.Sorted simGE full ∧ res = full.take k
              ∧ (full.map fun s => s.chunk).Perm
                  (db.filter fun c => decide (c.fileId ∈ fileIds)))
    ∧ (∀ res, FileService.findSimilarChunks sqrtF qv k fileIds (some dev) files db
          = some res →
        res.length ≤ k ∧ List.Sorted simGE res
          ∧ ∀ s ∈ res, s.chunk ∈ db ∧ s.chunk.fileId ∈ fileIds
              ∧ (∃ f ∈ files, f.id = s.chunk.fileId ∧ f.deviceId = dev)
              ∧ calculateCosineSimilarity sqrtF qv s.chunk.embedding = some s.similarity) := by
  constructor
  · intro res hres
    obtain ⟨base, hbase, hres2⟩ := Option.map_eq_some'.mp hres
    subst hres2
    have hsorted := List.sorted_insertionSort simGE base
    refine ⟨List.length_take_le k _, hsorted.sublist (List.take_sublist k _), ?_, ?_⟩
    · intro s hs
      have hmem : s ∈ List.insertionSort simGE base :=
        (List.take_sublist k _).mem hs
      have hb : s ∈ base := (List.mem_insertionSort simGE).mp hmem
      have hfil := scoreChunks_chunk_mem hbase s hb
      obtain ⟨hdb, hdec⟩ := List.mem_filter.mp hfil
      exact ⟨hdb, of_decide_eq_true hdec, scoreChunks_similarity hbase s hb⟩
    · refine ⟨List.insertionSort simGE base, hsorted, rfl, ?_⟩
      have hperm := (List.perm_insertionSort simGE base).map fun s => s.chunk
      rw [scoreChunks_map_chunk hbase] at hperm
      exact hperm
  · intro res hres
    simp only [FileService.findSimilarChunks] at hres
    obtain ⟨base, hbase, hres2⟩ := Option.map_eq_some'.mp hres
    subst hres2
    have hsorted := List.sorted_insertionSort simGE base
    refine ⟨List.length_take_le k _, hsorted.sublist (List.take_sublist k _), ?_⟩
    intro s hs
    have hmem : s ∈ List.insertionSort simGE base :=
      (List.take_sublist k _).mem hs
    have hb : s ∈ base := (List.mem_insertionSort simGE).mp hmem
    have hfil := scoreChunks_chunk_mem hbase s hb
    obtain ⟨hdb, hdec⟩ := List.mem_filter.mp hfil
    have hsim := scoreChunks_similarity hbase s hb
    by_cases hlen : fileIds.length > 0
    · simp only [hlen, if_true] at hdec
      have hin := of_decide_eq_true hdec
      obtain ⟨f, hf, hfid⟩ := List.mem_map.mp hin
      obtain ⟨hfmem, hfdec⟩ := List.mem_filter.mp hf
      have hfprops := hfdec
      rw [Bool.and_eq_true] at hfprops
      have hfin : f.id ∈ fileIds := of_decide_eq_true hfprops.1
      have hfdev : f.deviceId = dev := of_decide_eq_true hfprops.2
      exact ⟨hdb, hfid ▸ hfin, ⟨f, hfmem, hfid, hfdev⟩, hsim⟩
    · have hnil : fileIds = [] := List.length_eq_zero.mp (Nat.eq_zero_of_not_pos hlen)
      subst hnil
      simp at hdec

/-- Witness for C4: with matching owner, a one-chunk store returns that
chunk with similarity 1; the amended theorem's conclusions hold at this
concrete call. -/
theorem claim_C4_witness :
    (TextProcessor.findSimilarChunks id [1] 5 ["f1"] "devA"
        [⟨"f1", "hello", [1]⟩] = some [⟨⟨"f1", "hello", [1]⟩, 1⟩])
    ∧ ([(⟨⟨"f1", "hello", [1]⟩, (1 : ℚ)⟩ : ScoredChunk)]).length ≤ 5
    ∧ List.Sorted simGE [(⟨⟨"f1", "hello", [1]⟩, (1 : ℚ)⟩ : ScoredChunk)]
    ∧ ∀ s ∈ [(⟨⟨"f1", "hello", [1]⟩, (1 : ℚ)⟩ : ScoredChunk)],
        s.chunk ∈ [(⟨"f1", "hello", [1]⟩ : ChunkRec)] ∧ s.chunk.fileId ∈ ["f1"] := by
  have heq : TextProcessor.findSimilarChunks id [1] 5 ["f1"] "devA"
      [⟨"f1", "hello", [1]⟩] = some [⟨⟨"f1", "hello", [1]⟩, 1⟩] := by
    simp [TextProcessor.findSimilarChunks, scoreChunks, calculateCosineSimilarity,
      List.insertionSort, List.orderedInsert]
  have h := (claim_C4_amended_findSimilar id [1] 5 ["f1"] "devA" []
      [⟨"f1", "hello", [1]⟩]).1 _ heq
  exact ⟨heq, h.1, h.2.1, fun s hs => ⟨(h.2.2.1 s hs).1, (h.2.2.1 s hs).2.1⟩⟩

/-! #### Helper lemma for ingestion -/

theorem length_filterMap_of_all_some {α β : Type} (f : α → Option β) (l : List α)
    (h : ∀ x ∈ l, (f x).isSome) : (l.filterMap f).length = l.length := by
  induction l with
  | nil => rfl
  | cons x xs ih =>
      obtain ⟨y, hy⟩ := Option.isSome_iff_exists.mp (h x (List.mem_cons_self x xs))
      simp [List.filterMap_cons, hy,
        ih fun z hz => h z (List.mem_cons_of_mem x hz)]

/-! ### Claim theorems: ingestion -/

/-- C5 counterexample: ingesting a one-chunk document whose only embedding
call fails leaves the database changed — the `file` row was created before
any embedding was requested — so a Document record exists with zero chunk
rows even though ingestion aborted.  This contradicts the claim that a
failed embedding leaves the previously persisted state untouched with no
Document lacking its complete segment batch. -/
theorem claim_C5_counterexample :
    (processAndStoreFile (fun _ => none) 1
        ⟨"a.txt", "a.txt", "text/plain", 5, "dev1"⟩ [] [⟨['h'], 0, 0, 1⟩]
        ⟨[], []⟩).2 = Except.error "embedding failed"
    ∧ (processAndStoreFile (fun _ => none) 1
        ⟨"a.txt", "a.txt", "text/plain", 5, "dev1"⟩ [] [⟨['h'], 0, 0, 1⟩]
        ⟨[], []⟩).1
        = ⟨[⟨1, ⟨"a.txt", "a.txt", "text/plain", 5, "dev1"⟩, []⟩], []⟩
    ∧ (processAndStoreFile (fun _ => none) 1
        ⟨"a.txt", "a.txt", "text/plain", 5, "dev1"⟩ [] [⟨['h'], 0, 0, 1⟩]
        ⟨[], []⟩).1 ≠ (⟨[], []⟩ : DbState) := by
  exact ⟨rfl, rfl, by decide⟩

/-- C5 (amended): on any run of `processAndStoreFile`, the pre-existing
rows are preserved (both tables only grow), the call succeeds exactly when
every chunk's embedding call succeeds, and on success every chunk row is
persisted; but the new `file` row is committed unconditionally — also when
an embedding fails and the call rejects — so a failed ingestion can leave
a Document record with an incomplete (possibly empty) set of chunk rows. -/
theorem claim_C5_amended_ingestion
    (embedF : List Char → Option (List ℚ)) (newFileId : Nat) (meta : FileMeta)
    (questions : List String) (splitOutput : List TextChunk) (db : DbState) :
    (processAndStoreFile embedF newFileId meta questions splitOutput db).1.files
        = db.files ++ [⟨newFileId, meta, questions⟩]
    ∧ (∃ added,
        (processAndStoreFile embedF newFileId meta questions splitOutput db).1.chunks
            = db.chunks ++ added
          ∧ ∀ c ∈ added, c.fileId = newFileId)
    ∧ ((processAndStoreFile embedF newFileId meta questions splitOutput db).2
          = Except.ok newFileId
        ↔ ∀ c ∈ splitOutput, (embedF c.content).isSome)
    ∧ ((∀ c ∈ splitOutput, (embedF c.content).isSome) →
        (processAndStoreFile embedF newFileId meta questions splitOutput db).1.chunks.length
          = db.chunks.length + splitOutput.length) := by
  have hsplit : processAndStoreFile embedF newFileId meta questions splitOutput db
      = (⟨db.files ++ [⟨newFileId, meta, questions⟩],
          db.chunks ++ (splitOutput.map fun c => (c, embedF c.content)).filterMap
            fun p => p.2.map fun e =>
              ChunkRow.mk newFileId p.1.chunkIndex p.1.content p.1.startChar p.1.endChar e⟩,
         if (splitOutput.map fun c => (c, embedF c.content)).all (fun p => p.2.isSome)
         then Except.ok newFileId else Except.error "embedding failed") := by
    simp only [processAndStoreFile]
    split <;> rfl
  rw [hsplit]
  refine ⟨rfl, ⟨_, rfl, ?_⟩, ?_, ?_⟩
  · intro c hc
    obtain ⟨p, _, hp2⟩ := List.mem_filterMap.mp hc
    obtain ⟨e, _, he2⟩ := Option.map_eq_some'.mp hp2
    rw [← he2]
  · constructor
    · intro h
      by_cases hall : (splitOutput.map fun c => (c, embedF c.content)).all
          fun p => p.2.isSome
      · intro c hc
        have := List.all_eq_true.mp hall (c, embedF c.content)
          (List.mem_map_of_mem _ hc)
        simpa using this
      · rw [if_neg (by simpa using hall)] at h
        cases h
    · intro h
      rw [if_pos]
      exact List.all_eq_true.mpr fun p hp => by
        obtain ⟨c, hc, hcp⟩ := List.mem_map.mp hp
        subst hcp
        simpa using h c hc
  · intro h
    have hall : (splitOutput.map fun c => (c, embedF c.content)).all
        fun p => p.2.isSome :=
      List.all_eq_true.mpr fun p hp => by
        obtain ⟨c, hc, hcp⟩ := List.mem_map.mp hp
        subst hcp
        simpa using h c hc
    simp only [List.length_append]
    rw [length_filterMap_of_all_some _ _ fun p hp => by
      obtain ⟨c, hc, hcp⟩ := List.mem_map.mp hp
      subst hcp
      simpa using h c hc]
    simp

/-- Witness for C5 (amended): a successful one-chunk ingestion starting
from the empty store; the conclusions of the amended theorem hold there,
in particular the success iff and the chunk count. -/
theorem claim_C5_witness :
    ((∀ c ∈ [(⟨['h'], 0, 0, 1⟩ : TextChunk)],
        ((fun _ => some [(1 : ℚ)]) c.content).isSome)
      ∧ (processAndStoreFile (fun _ => some [(1 : ℚ)]) 1
          ⟨"a.txt", "a.txt", "text/plain", 5, "dev1"⟩ [] [⟨['h'], 0, 0, 1⟩]
          ⟨[], []⟩).1.files
          = [] ++ [⟨1, ⟨"a.txt", "a.txt", "text/plain", 5, "dev1"⟩, []⟩]
      ∧ ((processAndStoreFile (fun _ => some [(1 : ℚ)]) 1
          ⟨"a.txt", "a.txt", "text/plain", 5, "dev1"⟩ [] [⟨['h'], 0, 0, 1⟩]
          ⟨[], []⟩).2 = Except.ok 1
          ↔ ∀ c ∈ [(⟨['h'], 0, 0, 1⟩ : TextChunk)],
              ((fun _ => some [(1 : ℚ)]) c.content).isSome)
      ∧ (processAndStoreFile (fun _ => some [(1 : ℚ)]) 1
          ⟨"a.txt", "a.txt", "text/plain", 5, "dev1"⟩ [] [⟨['h'], 0, 0, 1⟩]
          ⟨[], []⟩).1.chunks.length = ([] : List ChunkRow).length + 1) := by
  have h := claim_C5_amended_ingestion (fun _ => some [(1 : ℚ)]) 1
    ⟨"a.txt", "a.txt", "text/plain", 5, "dev1"⟩ [] [⟨['h'], 0, 0, 1⟩] ⟨[], []⟩
  exact ⟨by simp, h.1, h.2.2.1, h.2.2.2 (by simp)⟩

/-! ### Claim theorems: conversation memory -/

/-- C6: `optimizeMemory` is all-or-nothing.  When it reports `optimized`,
the session carries a non-empty summary, `isSummarized` is set, and every
message is marked summarized (in particular every previously-unsummarized
one) with contents untouched; when it does not optimize — and in
particular whenever the summarization call fails or produces nothing —
the session and its messages are left completely unchanged. -/
theorem claim_C6_optimizeMemory_all_or_nothing
    (summarizeF : List (String × String) → Option String) (now : Nat) (st : MemState) :
    ((optimizeMemory summarizeF now st).2.optimized = true →
        (optimizeMemory summarizeF now st).1.session.isSummarized = true
        ∧ (∃ s, s ≠ ""
            ∧ (optimizeMemory summarizeF now st).1.session.conversationSummary = some s)
        ∧ (optimizeMemory summarizeF now st).1.messages
            = st.messages.map fun m => { m with isSummarized := true })
    ∧ ((optimizeMemory summarizeF now st).2.optimized = false →
        (optimizeMemory summarizeF now st).1 = st)
    ∧ (generateConversationSummary summarizeF (unsummarizedHistory st.messages) = "" →
        (optimizeMemory summarizeF now st).1 = st) := by
  by_cases h1 : st.session.messageCount < 15
  · simp [optimizeMemory, h1]
  · by_cases h2 : st.session.isSummarized
    · simp [optimizeMemory, h1, h2]
    · by_cases h3 : (unsummarizedHistory st.messages).isEmpty
      · simp [optimizeMemory, h1, h2, h3]
      · by_cases h4 : generateConversationSummary summarizeF
            (unsummarizedHistory st.messages) = ""
        · simp [optimizeMemory, h1, h2, h3, h4]
        · simp [optimizeMemory, h1, h2, h3, h4]

/-- Witness for C6: a session at the 15-message threshold with four
unsummarized messages and a summarizer that produces `"sum"`; the call
optimizes, stores the summary, and flips every message flag. -/
theorem claim_C6_witness :
    (let wSt : MemState :=
      ⟨⟨1, "t", "dev", 15, false, none, none⟩,
        [⟨1, "user", "a", [], false, 1⟩, ⟨2, "assistant", "b", [], false, 2⟩,
         ⟨3, "user", "c", [], false, 3⟩, ⟨4, "assistant", "d", [], false, 4⟩]⟩
     (optimizeMemory (fun _ => some "sum") 99 wSt).2.optimized = true
       ∧ (optimizeMemory (fun _ => some "sum") 99 wSt).1.session.isSummarized = true
       ∧ (∃ s, s ≠ ""
           ∧ (optimizeMemory (fun _ => some "sum") 99 wSt).1.session.conversationSummary
               = some s)
       ∧ (optimizeMemory (fun _ => some "sum") 99 wSt).1.messages
           = wSt.messages.map fun m => { m with isSummarized := true }) :=
  ⟨by decide,
    (claim_C6_optimizeMemory_all_or_nothing (fun _ => some "sum") 99
      ⟨⟨1, "t", "dev", 15, false, none, none⟩,
        [⟨1, "user", "a", [], false, 1⟩, ⟨2, "assistant", "b", [], false, 2⟩,
         ⟨3, "user", "c", [], false, 3⟩, ⟨4, "assistant", "d", [], false, 4⟩]⟩).1
      (by decide)⟩

/-- C8: for a summarized session owned by the caller, `clearConversationMemory`
resets the memory-accounting state to that of a fresh live session — summary
and timestamp cleared, flag false, `messageCount` 0, every message flag
false — while the messages themselves keep their ids, roles, contents and
timestamps and none is deleted. -/
theorem claim_C8_clearMemory_resets (deviceId : String) (st : MemState)
    (hown : st.session.deviceId = deviceId)
    (hsum : st.session.isSummarized = true) :
    ∃ st', clearConversationMemory deviceId st = Except.ok st'
      ∧ st'.session.conversationSummary = none
      ∧ st'.session.lastSummarizedAt = none
      ∧ st'.session.isSummarized = false
      ∧ st'.session.messageCount = 0
      ∧ st'.session.id = st.session.id
      ∧ st'.session.title = st.session.title
      ∧ st'.session.deviceId = st.session.deviceId
      ∧ st'.messages.length = st.messages.length
      ∧ st'.messages.map (fun m => m.id) = st.messages.map (fun m => m.id)
      ∧ st'.messages.map (fun m => m.role) = st.messages.map (fun m => m.role)
      ∧ st'.messages.map (fun m => m.content) = st.messages.map (fun m => m.content)
      ∧ st'.messages.map (fun m => m.createdAt) = st.messages.map (fun m => m.createdAt)
      ∧ ∀ m ∈ st'.messages, m.isSummarized = false := by
  refine ⟨⟨{ st.session with
        conversationSummary := none, lastSummarizedAt := none,
        isSummarized := false, messageCount := 0 },
      st.messages.map fun m => { m with isSummarized := false }⟩,
    by simp [clearConversationMemory, hown], rfl, rfl, rfl, rfl, rfl, rfl, rfl,
    ?_, ?_, ?_, ?_, ?_, ?_⟩
  · simp
  · simp [List.map_map]
  · simp [List.map_map]
  · simp [List.map_map]
  · simp [List.map_map]
  · intro m hm
    obtain ⟨m0, _, hm2⟩ := List.mem_map.mp hm
    rw [← hm2]

/-- Witness for C8: a concrete summarized two-message session owned by
`"dev"`. -/
theorem claim_C8_witness :
    ((⟨⟨1, "t", "dev", 16, true, some "sum", some 50⟩,
        [⟨1, "user", "a", [], true, 1⟩, ⟨2, "assistant", "b", [], true, 2⟩]⟩
          : MemState).session.deviceId = "dev"
      ∧ (⟨⟨1, "t", "dev", 16, true, some "sum", some 50⟩,
        [⟨1, "user", "a", [], true, 1⟩, ⟨2, "assistant", "b", [], true, 2⟩]⟩
          : MemState).session.isSummarized = true)
    ∧ ∃ st', clearConversationMemory "dev"
          ⟨⟨1, "t", "dev", 16, true, some "sum", some 50⟩,
            [⟨1, "user", "a", [], true, 1⟩, ⟨2, "assistant", "b", [], true, 2⟩]⟩
          = Except.ok st'
        ∧ st'.session.conversationSummary = none
        ∧ st'.session.lastSummarizedAt = none
        ∧ st'.session.isSummarized = false
        ∧ st'.session.messageCount = 0
        ∧ st'.session.id = 1
        ∧ st'.session.title = "t"
        ∧ st'.session.deviceId = "dev"
        ∧ st'.messages.length = 2
        ∧ ∀ m ∈ st'.messages, m.isSummarized = false := by
  refine ⟨⟨rfl, rfl⟩, ?_⟩
  obtain ⟨st', h1, h2, h3, h4, h5, h6, h7, h8, h9, _, _, _, _, h14⟩ :=
    claim_C8_clearMemory_resets "dev"
      ⟨⟨1, "t", "dev", 16, true, some "sum", some 50⟩,
        [⟨1, "user", "a", [], true, 1⟩, ⟨2, "assistant", "b", [], true, 2⟩]⟩
      rfl rfl
  exact ⟨st', h1, h2, h3, h4, h5, h6, h7, h8, h9, h14⟩

/-! #### Helper lemma for the chat turn -/

theorem optimizeMemory_preserves (summarizeF : List (String × String) → Option String)
    (now : Nat) (st : MemState) :
    (optimizeMemory summarizeF now st).1.session.messageCount = st.session.messageCount
    ∧ ((optimizeMemory summarizeF now st).1.messages = st.messages
        ∨ (optimizeMemory summarizeF now st).1.messages
            = st.messages.map fun m => { m with isSummarized := true }) := by
  by_cases h1 : st.session.messageCount < 15
  · simp [optimizeMemory, h1]
  · by_cases h2 : st.session.isSummarized
    · simp [optimizeMemory, h1, h2]
    · by_cases h3 : (unsummarizedHistory st.messages).isEmpty
      · simp [optimizeMemory, h1, h2, h3]
      · by_cases h4 : generateConversationSummary summarizeF
            (unsummarizedHistory st.messages) = ""
        · simp [optimizeMemory, h1, h2, h3, h4]
        · simp [optimizeMemory, h1, h2, h3, h4]

/-- C10: every successful chat turn appends exactly two messages — the user
message first, then the assistant message — and raises the session's
`messageCount` by exactly 2 (from 0 for a freshly created session); no step
of the turn changes it by any other amount. -/
theorem claim_C10_processQuestion_appends_two
    (memAnswerF : List (String × String) → String × Bool)
    (genAnswerF : Option String → String)
    (summarizeF : List (String × String) → Option String)
    (now : Nat) (question : String) (contextChunks : List String)
    (deviceId : String) (freshId msgId1 msgId2 : Nat) (st0 : Option MemState) :
    (processQuestion memAnswerF genAnswerF summarizeF now question contextChunks
          deviceId freshId msgId1 msgId2 st0).1.session.messageCount
        = (match st0 with | some ms => ms.session.messageCount | none => 0) + 2
    ∧ ∃ pre u a,
        (processQuestion memAnswerF genAnswerF summarizeF now question contextChunks
            deviceId freshId msgId1 msgId2 st0).1.messages = pre ++ [u, a]
        ∧ pre.length = (match st0 with | some ms => ms.messages.length | none => 0)
        ∧ u.role = "user" ∧ u.content = question
        ∧ a.role = "assistant" := by
  rcases st0 with _ | ms
  · -- fresh session: no history, so the else branch runs
    simp only [processQuestion, getOptimizedContext, getRecentMessages, shouldSummarizeFn]
    refine ⟨rfl, [], ⟨msgId1, "user", question, [], false, now⟩,
      ⟨msgId2, "assistant", genAnswerF none, contextChunks, false, now⟩,
      by simp, rfl, rfl, rfl, rfl⟩
  · simp only [processQuestion]
    by_cases h1 : (getOptimizedContext ms.session ms.messages).history.length > 0
    · by_cases h2 : ((getOptimizedContext ms.session ms.messages).shouldSummarize
          || (memAnswerF (getOptimizedContext ms.session ms.messages).history).2) = true
      · simp only [h1, if_true, h2, if_pos]
        obtain ⟨hc, hm⟩ := optimizeMemory_preserves summarizeF now
          ⟨{ ms.session with messageCount := ms.session.messageCount + 1 },
            ms.messages ++ [⟨msgId1, "user", question, [], false, now⟩]⟩
        constructor
        · simpa using hc
        · rcases hm with hm | hm
          · exact ⟨ms.messages, ⟨msgId1, "user", question, [], false, now⟩,
              ⟨msgId2, "assistant",
                (memAnswerF (getOptimizedContext ms.session ms.messages).history).1,
                contextChunks, false, now⟩,
              by rw [hm]; simp, rfl, rfl, rfl, rfl⟩
          · exact ⟨ms.messages.map fun m => { m with isSummarized := true },
              ⟨msgId1, "user", question, [], true, now⟩,
              ⟨msgId2, "assistant",
                (memAnswerF (getOptimizedContext ms.session ms.messages).history).1,
                contextChunks, false, now⟩,
              by rw [hm]; simp, by simp, rfl, rfl, rfl⟩
      · simp only [h1, if_true, h2, if_neg, Bool.not_eq_true]
        refine ⟨by simp, ms.messages, ⟨msgId1, "user", question, [], false, now⟩,
          ⟨msgId2, "assistant",
            (memAnswerF (getOptimizedContext ms.session ms.messages).history).1,
            contextChunks, false, now⟩, ?_, rfl, rfl, rfl, rfl⟩
        simp [h2]
    · simp only [h1, if_false]
      refine ⟨by simp, ms.messages, ⟨msgId1, "user", question, [], false, now⟩,
        ⟨msgId2, "assistant",
          genAnswerF (getOptimizedContext ms.session ms.messages).summary,
          contextChunks, false, now⟩, ?_, rfl, rfl, rfl, rfl⟩
      simp [h1]

/-! #### Helper lemma: `firstOcc` returns the least occurrence -/

theorem firstOcc_eq_some (p : List Char) :
    ∀ (t : List Char) (n : Nat), occursAt t p n = true →
      (∀ m, m < n → occursAt t p m = false) → firstOcc p t = some n := by
  intro t
  induction t with
  | nil =>
      intro n hocc hmin
      have hp : p.isPrefixOf ([] : List Char) = true := by
        simpa [occursAt] using hocc
      have hn : n = 0 := by
        by_contra hne
        have h0 := hmin 0 (Nat.pos_of_ne_zero hne)
        simp [occursAt] at h0
        rw [h0] at hp
        cases hp
      subst hn
      simp [firstOcc, hp]
  | cons c t ih =>
      intro n hocc hmin
      cases n with
      | zero =>
          have hp : p.isPrefixOf (c :: t) = true := by
            simpa [occursAt] using hocc
          simp [firstOcc, hp]
      | succ m =>
          have hp0 : p.isPrefixOf (c :: t) = false := by
            have := hmin 0 (Nat.succ_pos m)
            simpa [occursAt] using this
          have hocc2 : occursAt t p m = true := by
            simpa [occursAt] using hocc
          have hmin2 : ∀ k, k < m → occursAt t p k = false := by
            intro k hk
            have := hmin (k + 1) (Nat.succ_lt_succ hk)
            simpa [occursAt] using this
          simp [firstOcc, hp0, ih m hocc2 hmin2]

/-! ### Claim theorems: segmentation offsets -/

/-- C7 counterexample: the splitter output `["ab", "cd", "ab"]` is a
legitimate in-order decomposition of the text `"abcdab"` (each chunk occurs
at its own position 0, 2, 4), yet the produced start offsets are
`[0, 2, 0]` — the third chunk's text recurs at the start of the document
and `indexOf` picks that first occurrence — so the offsets of the produced
segment sequence are not monotonically increasing. -/
theorem claim_C7_counterexample :
    (occursAt ['a','b','c','d','a','b'] ['a','b'] 0 = true
      ∧ occursAt ['a','b','c','d','a','b'] ['c','d'] 2 = true
      ∧ occursAt ['a','b','c','d','a','b'] ['a','b'] 4 = true)
    ∧ ((splitTextIntoChunks (fun _ => [['a','b'], ['c','d'], ['a','b']])
          ['a','b','c','d','a','b']).map fun c => c.startChar) = [0, 2, 0]
    ∧ ¬ List.Chain' (· ≤ ·)
        ((splitTextIntoChunks (fun _ => [['a','b'], ['c','d'], ['a','b']])
          ['a','b','c','d','a','b']).map fun c => c.startChar) := by
  have hmap : ((splitTextIntoChunks (fun _ => [['a','b'], ['c','d'], ['a','b']])
      ['a','b','c','d','a','b']).map fun c => c.startChar) = [0, 2, 0] := by decide
  refine ⟨by decide, hmap, ?_⟩
  rw [hmap]
  intro h
  have h2 := (List.chain'_cons.mp (List.chain'_cons.mp h).2).1
  norm_num at h2

/-- C7 (amended): the start offsets are monotonically non-decreasing in
ordinal index provided no produced chunk's text occurs in the source
earlier than its intended position — i.e. when there are positions
`pos 0 ≤ pos 1 ≤ …` such that chunk `i` occurs at `pos i` and nowhere
before it.  Without that proviso the first-occurrence search can move an
offset backwards (see the counterexample). -/
theorem claim_C7_amended_offsets_monotone
    (splitter : List Char → List (List Char)) (text : List Char) (pos : Nat → Nat)
    (hmono : ∀ i j, i ≤ j → pos i ≤ pos j)
    (hocc : ∀ (i : Nat) (h : i < (splitter text).length),
        occursAt text ((splitter text).get ⟨i, h⟩) (pos i) = true)
    (hfirst : ∀ (i : Nat) (h : i < (splitter text).length),
        ∀ m, m < pos i → occursAt text ((splitter text).get ⟨i, h⟩) m = false) :
    List.Chain' (· ≤ ·)
      ((splitTextIntoChunks splitter text).map fun c => c.startChar) := by
  rw [List.chain'_iff_get]
  intro i hi
  have hlen : ((splitTextIntoChunks splitter text).map fun c => c.startChar).length
      = (splitter text).length := by
    simp [splitTextIntoChunks]
  rw [hlen] at hi
  have hi1 : i < (splitter text).length := by omega
  have hi2 : i + 1 < (splitter text).length := by omega
  have key : ∀ (j : Nat) (hj : j < (splitter text).length)
      (hj2 : j < ((splitTextIntoChunks splitter text).map fun c => c.startChar).length),
      ((splitTextIntoChunks splitter text).map fun c => c.startChar).get ⟨j, hj2⟩
        = ((pos j : Nat) : Int) := by
    intro j hj hj2
    have hfo : firstOcc ((splitter text).get ⟨j, hj⟩) text = some (pos j) :=
      firstOcc_eq_some _ text (pos j) (hocc j hj) (hfirst j hj)
    simp only [List.get_eq_getElem] at hfo ⊢
    simp [splitTextIntoChunks, List.map_map, List.getElem_map, List.getElem_enum, hfo]
  rw [key i hi1 (by rw [hlen]; omega), key (i + 1) hi2 (by rw [hlen]; omega)]
  exact_mod_cast hmono i (i + 1) (Nat.le_succ i)

/-- Witness for C7 (amended): the splitter output `["ab", "cd"]` on
`"abcd"` with positions `0, 2`; the offsets come out as `[0, 2]`, a
non-decreasing chain. -/
theorem claim_C7_witness :
    ((∀ (i : Nat) (h : i < ((fun _ => [['a','b'], ['c','d']])
            ['a','b','c','d'] : List (List Char)).length),
        occursAt ['a','b','c','d']
          (((fun _ => [['a','b'], ['c','d']]) ['a','b','c','d']).get ⟨i, h⟩)
          (2 * i) = true)
      ∧ (∀ (i : Nat) (h : i < ((fun _ => [['a','b'], ['c','d']])
            ['a','b','c','d'] : List (List Char)).length),
          ∀ m, m < 2 * i →
            occursAt ['a','b','c','d']
              (((fun _ => [['a','b'], ['c','d']]) ['a','b','c','d']).get ⟨i, h⟩)
              m = false))
    ∧ ((splitTextIntoChunks (fun _ => [['a','b'], ['c','d']])
          ['a','b','c','d']).map fun c => c.startChar) = [0, 2]
    ∧ List.Chain' (· ≤ ·)
        ((splitTextIntoChunks (fun _ => [['a','b'], ['c','d']])
          ['a','b','c','d']).map fun c => c.startChar) :=
  ⟨⟨by decide, by decide⟩, by decide,
    claim_C7_amended_offsets_monotone (fun _ => [['a','b'], ['c','d']])
      ['a','b','c','d'] (fun i => 2 * i)
      (fun i j h => by show 2 * i ≤ 2 * j; omega) (by decide) (by decide)⟩
